import Mathlib

/-!
Verification of the loco-minimal core: the validation-error bridge
(`src/validation.rs`) and the hook / initializer lifecycle contract
(`src/app.rs`).

The Rust source is shallowly embedded: traits with default method bodies
become structures with field defaults, `Result<T, E>` becomes `Except E T`,
and the asynchronous hook calls, which the spec requires to run strictly
sequentially, become plain function calls threaded in order.
-/

namespace LocoMinimal

/- ## Validation data model (src/validation.rs) -/

/-- The line-serialization type from `src/validation.rs`: one validation
entry, a code plus an optional human message.

```rust
pub struct ModelValidationMessage {
    pub code: String,
    pub message: Option<String>,
}
``` -/
structure ModelValidationMessage where
  code : String
  message : Option String
deriving DecidableEq

/-- The structured validation error produced by the `validator` crate's
`ValidationErrors`: a mapping from field name to an ordered sequence of
entries. Embedded as an ordered association list of
field name and entry list. -/
abbrev ValidationErrors := List (String × List ModelValidationMessage)

/-- A single `validator::ValidationError`. `ValidationError::new(code)`
sets the code and leaves the message absent. -/
structure ValidationError where
  code : String
  message : Option String
deriving DecidableEq

/-- `ValidationError::new` from the `validator` crate: code only, no
message. -/
def ValidationError.new (code : String) : ValidationError :=
  { code := code, message := none }

/-- `is_valid_email` from `src/validation.rs`:

```rust
pub fn is_valid_email(email: &str) -> Result<(), ValidationError> {
    if email.contains('@') {
        Ok(())
    } else {
        Err(ValidationError::new("invalid email"))
    }
}
``` -/
def is_valid_email (email : String) : Except ValidationError Unit :=
  if email.contains '@' then Except.ok () else Except.error (ValidationError.new "invalid email")

/-- `ModelValidationErrors` from `src/validation.rs`: a newtype wrapper
around the structured `ValidationErrors`, used to smuggle the structured
form through the narrow `DbErr` channel. -/
structure ModelValidationErrors where
  errors : ValidationErrors
deriving DecidableEq

/-- The `Deref` implementation of `ModelValidationErrors`: a caller holding
the typed error reaches the wrapped structured form directly. -/
def ModelValidationErrors.deref (m : ModelValidationErrors) : ValidationErrors :=
  m.errors

/-- `Validatable::validate` from `src/validation.rs`:

```rust
fn validate(&self) -> Result<(), ModelValidationErrors> {
    self.validator().validate().map_err(ModelValidationErrors)
}
```

The polymorphic validator object is represented by the outcome of running
it: `validatorRun` is what `self.validator().validate()` returned. -/
def validate (validatorRun : Except ValidationErrors Unit) : Except ModelValidationErrors Unit :=
  validatorRun.mapError ModelValidationErrors.mk

/- ## Serde model for `ModelValidationMessage` (claim C10)

The `Serialize` and `Deserialize` implementations are derived; they are
embedded at the JSON-value level: a struct serializes to an object with
one member per field, `Option` serializing `None` to JSON null. -/

/-- A JSON value, restricted to the shapes the derived serializer of
`ModelValidationMessage` can produce or its deserializer inspect. -/
inductive Json where
  | null : Json
  | str : String → Json
  | obj : List (String × Json) → Json

/-- The derived `Serialize` for `ModelValidationMessage`: an object with a
`code` string member and a `message` member that is a string or null. -/
def mvmToJson (m : ModelValidationMessage) : Json :=
  Json.obj [("code", Json.str m.code),
            ("message", match m.message with
              | none => Json.null
              | some s => Json.str s)]

/-- The derived `Deserialize` for `ModelValidationMessage`: accepts exactly
the objects the serializer produces, rejecting anything else. -/
def mvmFromJson : Json → Option ModelValidationMessage
  | Json.obj [("code", Json.str c), ("message", mv)] =>
    match mv with
    | Json.null => some { code := c, message := none }
    | Json.str s => some { code := c, message := some s }
    | _ => none
  | _ => none

/- ## The narrow-channel encode/decode bridge

Modelled from the spec: the encoder that serializes a structured
validation error into the display text of the narrow channel, and the
decoder at the response boundary, are not under `src/` (only the
`ModelValidationErrors` wrapper and its `Display` prefix are). The spec
declares the format an internal contract between encoder and decoder,
"a deterministic structured-text encoding of field→entries", not a
published wire format. The model uses the `Display` prefix of
`ModelValidationErrors` from `src/validation.rs` followed by a
length-delimited rendering of the field map. -/

/-- The display prefix of `ModelValidationErrors`, from its derived
`Display`: `"Model validation failed: {0}"`. -/
def marker : List Char := "Model validation failed: ".data

/-- Modelled from the spec: a length field of the structured-text
encoding, written as a unary run terminated by a colon. -/
def encLen (n : Nat) : List Char :=
  List.replicate n 'l' ++ [':']

/-- Modelled from the spec: a string field, written as its length
followed by its characters verbatim. -/
def encStr (s : String) : List Char :=
  encLen s.data.length ++ s.data

/-- Modelled from the spec: one `{code, message}` entry; an absent
message is a tag with no payload. -/
def encMsg (m : ModelValidationMessage) : List Char :=
  encStr m.code ++ (match m.message with
    | none => ['n']
    | some t => 's' :: encStr t)

/-- Modelled from the spec: an ordered sequence of entries, count first. -/
def encMsgs (ms : List ModelValidationMessage) : List Char :=
  encLen ms.length ++ (ms.map encMsg).flatten

/-- Modelled from the spec: one field of the map, its name then its
entries. -/
def encField (f : String × List ModelValidationMessage) : List Char :=
  encStr f.1 ++ encMsgs f.2

/-- Modelled from the spec: the whole field map, count first. -/
def encFields (e : ValidationErrors) : List Char :=
  encLen e.length ++ (e.map encField).flatten

/-- Modelled from the spec: `encode`, the serialization of a structured
validation error into the narrow-channel display text. -/
def encode (e : ValidationErrors) : String :=
  { data := marker ++ encFields e }

/-- Parse a unary length field. -/
def parseLen : List Char → Option (Nat × List Char)
  | [] => none
  | c :: cs =>
    if c = ':' then some (0, cs)
    else if c = 'l' then
      match parseLen cs with
      | some (n, rest) => some (n + 1, rest)
      | none => none
    else none

/-- Parse a length-delimited string field. -/
def parseStr (cs : List Char) : Option (List Char × List Char) :=
  match parseLen cs with
  | some (n, rest) =>
    if n ≤ rest.length then some (rest.take n, rest.drop n) else none
  | none => none

/-- Parse one `{code, message}` entry. -/
def parseMsg (cs : List Char) : Option (ModelValidationMessage × List Char) :=
  match parseStr cs with
  | some (c, rest) =>
    match rest with
    | [] => none
    | tag :: rest2 =>
      if tag = 'n' then some ({ code := { data := c }, message := none }, rest2)
      else if tag = 's' then
        match parseStr rest2 with
        | some (t, rest3) => some ({ code := { data := c }, message := some { data := t } }, rest3)
        | none => none
      else none
  | none => none

/-- Parse a counted sequence of entries. -/
def parseMsgs : Nat → List Char → Option (List ModelValidationMessage × List Char)
  | 0, cs => some ([], cs)
  | n + 1, cs =>
    match parseMsg cs with
    | some (m, rest) =>
      match parseMsgs n rest with
      | some (ms, rest2) => some (m :: ms, rest2)
      | none => none
    | none => none

/-- Parse one field of the map. -/
def parseField (cs : List Char) : Option ((String × List ModelValidationMessage) × List Char) :=
  match parseStr cs with
  | some (f, rest) =>
    match parseLen rest with
    | some (k, rest2) =>
      match parseMsgs k rest2 with
      | some (ms, rest3) => some (({ data := f }, ms), rest3)
      | none => none
    | none => none
  | none => none

/-- Parse a counted sequence of fields. -/
def parseFields : Nat → List Char → Option (ValidationErrors × List Char)
  | 0, cs => some ([], cs)
  | n + 1, cs =>
    match parseField cs with
    | some (f, rest) =>
      match parseFields n rest with
      | some (fs, rest2) => some (f :: fs, rest2)
      | none => none
    | none => none

/-- Strip an expected literal head from the input, or fail. -/
def stripHead : List Char → List Char → Option (List Char)
  | [], cs => some cs
  | _ :: _, [] => none
  | p :: ps, c :: cs => if c = p then stripHead ps cs else none

/-- The decoder's classification of a narrow-channel error text: either a
reconstructed structured validation error, or an unparsed text surfaced
as-is. -/
inductive DecodeResult where
  | validation : ValidationErrors → DecodeResult
  | opaqueText : String → DecodeResult
deriving DecidableEq

/-- Modelled from the spec: `decode`, the best-effort parser at the
response boundary. A text that is not a complete well-formed payload is
classified as opaque, carrying the original text unchanged. -/
def decode (t : String) : DecodeResult :=
  match stripHead marker t.data with
  | some rest =>
    match parseLen rest with
    | some (n, rest2) =>
      match parseFields n rest2 with
      | some (e, []) => DecodeResult.validation e
      | _ => DecodeResult.opaqueText t
    | none => DecodeResult.opaqueText t
  | none => DecodeResult.opaqueText t

/- ## Codec round-trip lemmas -/

theorem parseLen_encLen (n : Nat) (t : List Char) :
    parseLen (encLen n ++ t) = some (n, t) := by
  induction n with
  | zero => simp [encLen, parseLen]
  | succ k ih =>
    simp only [encLen, List.replicate_succ, List.cons_append, List.append_assoc,
      List.singleton_append, List.nil_append] at ih ⊢
    simp [parseLen, ih]

theorem parseStr_encStr (s : String) (t : List Char) :
    parseStr (encStr s ++ t) = some (s.data, t) := by
  simp [encStr, parseStr, List.append_assoc, parseLen_encLen, List.take_left, List.drop_left]

theorem parseMsg_encMsg (m : ModelValidationMessage) (t : List Char) :
    parseMsg (encMsg m ++ t) = some (m, t) := by
  cases m with
  | mk c msg =>
    cases msg with
    | none =>
      simp [encMsg, parseMsg, List.append_assoc, parseStr_encStr]
    | some u =>
      simp [encMsg, parseMsg, List.append_assoc, parseStr_encStr]

theorem parseMsgs_encMsgs (ms : List ModelValidationMessage) (t : List Char) :
    parseMsgs ms.length ((ms.map encMsg).flatten ++ t) = some (ms, t) := by
  induction ms generalizing t with
  | nil => simp [parseMsgs]
  | cons m rest ih =>
    simp only [List.map_cons, List.flatten_cons, List.length_cons, List.append_assoc]
    simp [parseMsgs, parseMsg_encMsg, ih]

theorem parseField_encField (f : String × List ModelValidationMessage) (t : List Char) :
    parseField (encField f ++ t) = some (f, t) := by
  cases f with
  | mk name ms =>
    simp [encField, encMsgs, parseField, List.append_assoc, parseStr_encStr,
      parseLen_encLen, parseMsgs_encMsgs]

theorem parseFields_encFields (e : ValidationErrors) (t : List Char) :
    parseFields e.length ((e.map encField).flatten ++ t) = some (e, t) := by
  induction e generalizing t with
  | nil => simp [parseFields]
  | cons f rest ih =>
    simp only [List.map_cons, List.flatten_cons, List.length_cons, List.append_assoc]
    simp [parseFields, parseField_encField, ih]

theorem stripHead_append (p t : List Char) : stripHead p (p ++ t) = some t := by
  induction p with
  | nil => simp [stripHead]
  | cons c cs ih => simp [stripHead, ih]

/-- C1: decoding the narrow-channel encoding of any structured validation
error, including entries whose message is absent, yields it back exactly:
`decode (encode e) = validation e`. -/
theorem decode_encode_roundtrip (e : ValidationErrors) :
    decode (encode e) = DecodeResult.validation e := by
  have hfields : parseFields e.length ((e.map encField).flatten) = some (e, []) := by
    have := parseFields_encFields e []
    simpa using this
  simp [decode, encode, encFields, stripHead_append, List.append_assoc,
    parseLen_encLen, hfields]

/- ## Codec soundness lemmas: a successful parse consumed exactly an
encoding -/

theorem parseLen_sound : ∀ {cs : List Char} {n : Nat} {r : List Char},
    parseLen cs = some (n, r) → cs = encLen n ++ r := by
  intro cs
  induction cs with
  | nil => intro n r h; simp [parseLen] at h
  | cons c cs ih =>
    intro n r h
    by_cases hc : c = ':'
    · subst hc
      simp [parseLen] at h
      obtain ⟨h1, h2⟩ := h
      subst h1; subst h2
      simp [encLen]
    · by_cases hl : c = 'l'
      · subst hl
        simp [parseLen, hc] at h
        rcases hrec : parseLen cs with _ | ⟨k, rest⟩
        · rw [hrec] at h; simp at h
        · rw [hrec] at h
          simp at h
          obtain ⟨h1, h2⟩ := h
          subst h1; subst h2
          have := ih hrec
          rw [this]
          simp [encLen, List.replicate_succ]
      · simp [parseLen, hc, hl] at h

theorem parseStr_sound {cs : List Char} {s r : List Char}
    (h : parseStr cs = some (s, r)) :
    cs = encStr { data := s } ++ r := by
  unfold parseStr at h
  rcases hlen : parseLen cs with _ | ⟨n, rest⟩
  · rw [hlen] at h; simp at h
  · rw [hlen] at h
    dsimp only at h
    by_cases hle : n ≤ rest.length
    · rw [if_pos hle] at h
      simp at h
      obtain ⟨h1, h2⟩ := h
      have hcs := parseLen_sound hlen
      subst h1; subst h2
      rw [hcs, encStr]
      simp [List.length_take, Nat.min_eq_left hle, List.append_assoc]
    · rw [if_neg hle] at h; simp at h

theorem parseMsg_sound {cs : List Char} {m : ModelValidationMessage} {r : List Char}
    (h : parseMsg cs = some (m, r)) :
    cs = encMsg m ++ r := by
  unfold parseMsg at h
  rcases hstr : parseStr cs with _ | ⟨c, rest⟩
  · rw [hstr] at h; simp at h
  · rw [hstr] at h
    dsimp only at h
    have hcs := parseStr_sound hstr
    rcases rest with _ | ⟨tag, rest2⟩
    · simp at h
    · dsimp only at h
      by_cases hn : tag = 'n'
      · subst hn
        rw [if_pos rfl] at h
        simp at h
        obtain ⟨h1, h2⟩ := h
        subst h1; subst h2
        simpa [encMsg, List.append_assoc] using hcs
      · rw [if_neg hn] at h
        by_cases hs : tag = 's'
        · subst hs
          rw [if_pos rfl] at h
          rcases hstr2 : parseStr rest2 with _ | ⟨t, rest3⟩
          · rw [hstr2] at h; simp at h
          · rw [hstr2] at h
            simp at h
            obtain ⟨h1, h2⟩ := h
            subst h1; subst h2
            have h2cs := parseStr_sound hstr2
            rw [hcs, h2cs]
            simp [encMsg, List.append_assoc]
        · rw [if_neg hs] at h
          simp at h

theorem parseMsgs_sound : ∀ {k : Nat} {cs : List Char}
    {ms : List ModelValidationMessage} {r : List Char},
    parseMsgs k cs = some (ms, r) →
    ms.length = k ∧ cs = (ms.map encMsg).flatten ++ r := by
  intro k
  induction k with
  | zero =>
    intro cs ms r h
    simp [parseMsgs] at h
    obtain ⟨h1, h2⟩ := h
    subst h1; subst h2
    simp
  | succ j ih =>
    intro cs ms r h
    unfold parseMsgs at h
    rcases hmsg : parseMsg cs with _ | ⟨m, rest⟩
    · rw [hmsg] at h; simp at h
    · rw [hmsg] at h
      dsimp only at h
      rcases hrec : parseMsgs j rest with _ | ⟨ms2, rest2⟩
      · rw [hrec] at h; simp at h
      · rw [hrec] at h
        simp at h
        obtain ⟨h1, h2⟩ := h
        subst h1; subst h2
        obtain ⟨hlen, hrest⟩ := ih hrec
        refine ⟨by simp [hlen], ?_⟩
        rw [parseMsg_sound hmsg, hrest]
        simp [List.append_assoc]

theorem parseField_sound {cs : List Char}
    {f : String × List ModelValidationMessage} {r : List Char}
    (h : parseField cs = some (f, r)) :
    cs = encField f ++ r := by
  unfold parseField at h
  rcases hstr : parseStr cs with _ | ⟨nm, rest⟩
  · rw [hstr] at h; simp at h
  · rw [hstr] at h
    dsimp only at h
    rcases hlen : parseLen rest with _ | ⟨k, rest2⟩
    · rw [hlen] at h; simp at h
    · rw [hlen] at h
      dsimp only at h
      rcases hms : parseMsgs k rest2 with _ | ⟨ms, rest3⟩
      · rw [hms] at h; simp at h
      · rw [hms] at h
        simp at h
        obtain ⟨h1, h2⟩ := h
        subst h1; subst h2
        obtain ⟨hk, hrest2⟩ := parseMsgs_sound hms
        rw [parseStr_sound hstr, parseLen_sound hlen, hrest2]
        simp [encField, encMsgs, hk, List.append_assoc]

theorem parseFields_sound : ∀ {k : Nat} {cs : List Char}
    {e : ValidationErrors} {r : List Char},
    parseFields k cs = some (e, r) →
    e.length = k ∧ cs = (e.map encField).flatten ++ r := by
  intro k
  induction k with
  | zero =>
    intro cs e r h
    simp [parseFields] at h
    obtain ⟨h1, h2⟩ := h
    subst h1; subst h2
    simp
  | succ j ih =>
    intro cs e r h
    unfold parseFields at h
    rcases hf : parseField cs with _ | ⟨f, rest⟩
    · rw [hf] at h; simp at h
    · rw [hf] at h
      dsimp only at h
      rcases hrec : parseFields j rest with _ | ⟨fs, rest2⟩
      · rw [hrec] at h; simp at h
      · rw [hrec] at h
        simp at h
        obtain ⟨h1, h2⟩ := h
        subst h1; subst h2
        obtain ⟨hlen, hrest⟩ := ih hrec
        refine ⟨by simp [hlen], ?_⟩
        rw [parseField_sound hf, hrest]
        simp [List.append_assoc]

theorem stripHead_sound : ∀ {p cs r : List Char},
    stripHead p cs = some r → cs = p ++ r := by
  intro p
  induction p with
  | nil =>
    intro cs r h
    simp [stripHead] at h
    simp [h]
  | cons c cs ih =>
    intro input r h
    match input, h with
    | [], h => simp [stripHead] at h
    | d :: ds, h =>
      by_cases hd : d = c
      · subst hd
        simp [stripHead] at h
        have := ih h
        simp [this]
      · simp [stripHead, hd] at h

/-- C2: the decoder is total on every input string; a text that is not an
encoder output is classified opaque, carrying the original text
unchanged, and decoding only ever yields the structured form on the exact
output of `encode`. -/
theorem decode_total_or_encoded (t : String) :
    (∃ e, t = encode e ∧ decode t = DecodeResult.validation e) ∨
      decode t = DecodeResult.opaqueText t := by
  unfold decode
  rcases hstrip : stripHead marker t.data with _ | rest
  · right; rfl
  · dsimp only
    rcases hlen : parseLen rest with _ | ⟨n, rest2⟩
    · right; rfl
    · dsimp only
      rcases hfields : parseFields n rest2 with _ | ⟨e, leftover⟩
      · right; rfl
      · rcases leftover with _ | ⟨c, cs⟩
        · left
          refine ⟨e, ?_, rfl⟩
          obtain ⟨hn, hrest2⟩ := parseFields_sound hfields
          have hdata : t.data = (encode e).data := by
            rw [stripHead_sound hstrip, parseLen_sound hlen, hrest2]
            simp [encode, encFields, hn, List.append_assoc]
          cases t with
          | mk d =>
            cases hdata
            rfl
        · right; rfl

/-- C6: the encoder is deterministic: two invocations on the same
structured validation error produce identical display strings. -/
theorem encode_deterministic (e1 e2 : ValidationErrors) (h : e1 = e2) :
    encode e1 = encode e2 := by
  rw [h]

/-- Witness for C6: the encoder at a concrete structured error. -/
theorem encode_deterministic_witness :
    encode [("name", [{ code := "length", message := some "too short" }])] =
      encode [("name", [{ code := "length", message := some "too short" }])] :=
  encode_deterministic _ _ rfl

/-- C9: `is_valid_email` accepts exactly the strings containing at least
one at-sign character; every other string is rejected with a
`ValidationError` whose code is `"invalid email"` and no message. -/
theorem is_valid_email_iff (email : String) :
    (is_valid_email email = Except.ok () ↔ '@' ∈ email.data) ∧
      ('@' ∉ email.data →
        is_valid_email email = Except.error (ValidationError.new "invalid email")) := by
  have hc : email.contains '@' = true ↔ '@' ∈ email.data := String.contains_iff email '@'
  constructor
  · constructor
    · intro h
      by_cases hb : email.contains '@'
      · exact hc.mp hb
      · simp [is_valid_email, hb] at h
    · intro h
      simp [is_valid_email, hc.mpr h]
  · intro h
    have hb : email.contains '@' = false := by
      by_cases hb : email.contains '@'
      · exact absurd (hc.mp hb) h
      · simpa using hb
    simp [is_valid_email, hb]

/-- Witness for C9: the single-character string of one at-sign is
accepted, and an at-sign-free string is rejected with code
`"invalid email"`. -/
theorem is_valid_email_iff_witness :
    is_valid_email "@" = Except.ok () ∧
      is_valid_email "nobody" = Except.error (ValidationError.new "invalid email") :=
  ⟨(is_valid_email_iff "@").1.mpr (by decide),
    (is_valid_email_iff "nobody").2 (by decide)⟩

/-- C5: `validate` fails exactly when the validator object fails, the
typed error wraps exactly the structured validation error the validator
produced, and the structured form is reachable through the typed error's
deref. -/
theorem validate_wraps_validator (vr : Except ValidationErrors Unit) :
    ((∃ w, validate vr = Except.error w) ↔ ∃ ve, vr = Except.error ve) ∧
      (∀ w, validate vr = Except.error w → vr = Except.error w.deref) ∧
      (∀ ve, vr = Except.error ve →
        validate vr = Except.error { errors := ve } ∧
          ModelValidationErrors.deref { errors := ve } = ve) := by
  cases vr with
  | ok u =>
    refine ⟨⟨?_, ?_⟩, ?_, ?_⟩
    · rintro ⟨w, hw⟩
      simp [validate, Except.mapError] at hw
    · rintro ⟨ve, hve⟩
      simp at hve
    · intro w hw
      simp [validate, Except.mapError] at hw
    · intro ve hve
      simp at hve
  | error e =>
    refine ⟨⟨?_, ?_⟩, ?_, ?_⟩
    · intro _
      exact ⟨e, rfl⟩
    · intro _
      exact ⟨{ errors := e }, by simp [validate, Except.mapError]⟩
    · intro w hw
      simp [validate, Except.mapError] at hw
      simp [← hw, ModelValidationErrors.deref]
    · intro ve hve
      simp at hve
      subst hve
      exact ⟨by simp [validate, Except.mapError], rfl⟩

/-- Witness for C5: a concrete failing validator run is wrapped exactly
and its structured form is recovered by deref. -/
theorem validate_wraps_validator_witness :
    validate (Except.error [("name", [{ code := "length", message := some "too short" }])]) =
        Except.error { errors := [("name", [{ code := "length", message := some "too short" }])] } ∧
      ModelValidationErrors.deref
          { errors := [("name", [{ code := "length", message := some "too short" }])] } =
        [("name", [{ code := "length", message := some "too short" }])] :=
  (validate_wraps_validator _).2.2 _ rfl

/-- C10: the line-serialization type `ModelValidationMessage` round-trips
losslessly through its derived serializer and deserializer, including
when the message is absent. -/
theorem mvm_serde_roundtrip (m : ModelValidationMessage) :
    mvmFromJson (mvmToJson m) = some m := by
  cases m with
  | mk c msg => cases msg <;> rfl

/- ## The lifecycle contract (src/app.rs)

The `Hooks` and `Initializer` traits become structures whose optional
operations carry, as Lean field defaults, exactly the default method
bodies of `src/app.rs`. The context, router, route-table and error types
are opaque to this core, so they stay type parameters; the async calls
are embedded as plain sequential calls, which is what the spec's
concurrency model prescribes. -/

/-- The `Initializer` trait from `src/app.rs`: a diagnostic name plus two
optional operations, `before_run` defaulting to `Ok(())` and
`after_routes` defaulting to `Ok(router)`. -/
structure InitializerM (Ctx Router E : Type) where
  name : String
  before_run : Ctx → Except E Unit := fun _ => Except.ok ()
  after_routes : Router → Ctx → Except E Router := fun r _ => Except.ok r

/-- The `Hooks` trait from `src/app.rs`. `app_name` and `routes` have no
default; every other operation carries the default body of the source:
`app_version` is `"dev"`, `before_routes` returns a fresh empty router,
`after_routes` returns its router unchanged, `initializers` returns the
empty list, `before_run` returns `Ok(())`, `after_context` returns its
context unchanged, and `on_shutdown` does nothing. -/
structure HooksM (Ctx Router RT E : Type) (emptyRouter : Router) where
  app_version : String := "dev"
  app_name : String
  before_routes : Ctx → Except E Router := fun _ => Except.ok emptyRouter
  after_routes : Router → Ctx → Except E Router := fun r _ => Except.ok r
  initializers : Ctx → Except E (List (InitializerM Ctx Router E)) := fun _ => Except.ok []
  before_run : Ctx → Except E Unit := fun _ => Except.ok ()
  routes : Ctx → RT
  after_context : Ctx → Except E Ctx := fun c => Except.ok c
  on_shutdown : Ctx → Unit := fun _ => ()

variable {Ctx Router RT E : Type} {emptyRouter : Router}

/-- Modelled from the spec: stage 4 of the pipeline, which is not under
`src/` (only the trait it drives is): invoke each initializer's
`before_run` in registry order, stopping at the first failure. -/
def runInitsBeforeRun (ctx : Ctx) : List (InitializerM Ctx Router E) → Except E Unit
  | [] => Except.ok ()
  | i :: rest =>
    match i.before_run ctx with
    | Except.error e => Except.error e
    | Except.ok _ => runInitsBeforeRun ctx rest

/-- Modelled from the spec: stage 7, threading the router through each
initializer's `after_routes` in registry order, stopping at the first
failure. -/
def runInitsAfterRoutes (ctx : Ctx) (r : Router) :
    List (InitializerM Ctx Router E) → Except E Router
  | [] => Except.ok r
  | i :: rest =>
    match i.after_routes r ctx with
    | Except.error e => Except.error e
    | Except.ok r2 => runInitsAfterRoutes ctx r2 rest

/-- Modelled from the spec: the lifecycle pipeline driver, stages 1
through 8 of the startup sequence, which is not under `src/`. Any
failing stage short-circuits the rest and becomes the pipeline's result.
`mergeRoutes` is the opaque merge of the declared route table onto the
base router. -/
def runPipeline (mergeRoutes : Router → RT → Router)
    (h : HooksM Ctx Router RT E emptyRouter) (ctx : Ctx) : Except E Router :=
  match h.after_context ctx with
  | Except.error e => Except.error e
  | Except.ok ctxF =>
    match h.before_run ctxF with
    | Except.error e => Except.error e
    | Except.ok _ =>
      match h.initializers ctxF with
      | Except.error e => Except.error e
      | Except.ok inits =>
        match runInitsBeforeRun ctxF inits with
        | Except.error e => Except.error e
        | Except.ok _ =>
          match h.before_routes ctxF with
          | Except.error e => Except.error e
          | Except.ok r0 =>
            match runInitsAfterRoutes ctxF (mergeRoutes r0 (h.routes ctxF)) inits with
            | Except.error e => Except.error e
            | Except.ok rN => h.after_routes rN ctxF

/- ### Concrete instances making layer order observable -/

/-- A concrete initializer contributing an observable layer: it pushes
its name onto the router, so the head of the list is the outermost
layer. -/
def tagInit (s : String) : InitializerM Unit (List String) Unit :=
  { name := s, after_routes := fun r _ => Except.ok (s :: r) }

/-- Merging the (empty) declared route table for the tag instance. -/
def tagMerge (r : List String) (_rt : Unit) : List String := r

/-- A concrete app registering the tag initializers A then B. -/
def hooksAB : HooksM Unit (List String) Unit Unit [] :=
  { app_name := "demo", routes := fun _ => (),
    initializers := fun _ => Except.ok [tagInit "A", tagInit "B"] }

/-- The same app with the two initializers swapped. -/
def hooksBA : HooksM Unit (List String) Unit Unit [] :=
  { app_name := "demo", routes := fun _ => (),
    initializers := fun _ => Except.ok [tagInit "B", tagInit "A"] }

/- ### Sequencing lemmas -/

theorem runInitsBeforeRun_append (ctx : Ctx) (l1 l2 : List (InitializerM Ctx Router E)) :
    runInitsBeforeRun ctx (l1 ++ l2) =
      match runInitsBeforeRun ctx l1 with
      | Except.error e => Except.error e
      | Except.ok _ => runInitsBeforeRun ctx l2 := by
  induction l1 with
  | nil => rfl
  | cons p ps ih =>
    simp only [List.cons_append]
    rcases hp : p.before_run ctx with e2 | u
    · simp [runInitsBeforeRun, hp]
    · simp [runInitsBeforeRun, hp, ih]

theorem runInitsAfterRoutes_append (ctx : Ctx) (r : Router)
    (l1 l2 : List (InitializerM Ctx Router E)) :
    runInitsAfterRoutes ctx r (l1 ++ l2) =
      match runInitsAfterRoutes ctx r l1 with
      | Except.error e => Except.error e
      | Except.ok r2 => runInitsAfterRoutes ctx r2 l2 := by
  induction l1 generalizing r with
  | nil => rfl
  | cons p ps ih =>
    simp only [List.cons_append]
    rcases hp : p.after_routes r ctx with e2 | r2
    · simp [runInitsAfterRoutes, hp]
    · simp [runInitsAfterRoutes, hp, ih]

theorem runInitsAfterRoutes_pure (ctx : Ctx)
    (layer : InitializerM Ctx Router E → Router → Router)
    (inits : List (InitializerM Ctx Router E))
    (hl : ∀ i ∈ inits, ∀ r, i.after_routes r ctx = Except.ok (layer i r)) :
    ∀ r, runInitsAfterRoutes ctx r inits =
      Except.ok (inits.foldl (fun r i => layer i r) r) := by
  induction inits with
  | nil => intro r; rfl
  | cons i rest ih =>
    intro r
    unfold runInitsAfterRoutes
    rw [hl i (by simp) r]
    exact ih (fun j hj r2 => hl j (by simp [hj]) r2) (layer i r)

/- ### Pipeline claims -/

/-- C3: when the stages succeed, the final router is the top-level
`after_routes` layer applied to the initializer layers folded in registry
order over the merge of the base router with the declared route table —
so the initializer run last is outermost — and swapping two
order-sensitive initializers changes the composed router. -/
theorem pipeline_router_composition
    (mergeRoutes : Router → RT → Router) (h : HooksM Ctx Router RT E emptyRouter)
    (ctx ctxF : Ctx) (inits : List (InitializerM Ctx Router E)) (r0 : Router)
    (layer : InitializerM Ctx Router E → Router → Router) (finalLayer : Router → Router)
    (h1 : h.after_context ctx = Except.ok ctxF)
    (h2 : h.before_run ctxF = Except.ok ())
    (h3 : h.initializers ctxF = Except.ok inits)
    (h4 : runInitsBeforeRun ctxF inits = Except.ok ())
    (h5 : h.before_routes ctxF = Except.ok r0)
    (h6 : ∀ i ∈ inits, ∀ r, i.after_routes r ctxF = Except.ok (layer i r))
    (h7 : ∀ r, h.after_routes r ctxF = Except.ok (finalLayer r)) :
    runPipeline mergeRoutes h ctx =
        Except.ok (finalLayer (inits.foldl (fun r i => layer i r)
          (mergeRoutes r0 (h.routes ctxF)))) ∧
      runPipeline tagMerge hooksAB () ≠ runPipeline tagMerge hooksBA () := by
  constructor
  · unfold runPipeline
    rw [h1]
    dsimp only
    rw [h2]
    dsimp only
    rw [h3]
    dsimp only
    rw [h4]
    dsimp only
    rw [h5]
    dsimp only
    rw [runInitsAfterRoutes_pure ctxF layer inits h6]
    dsimp only
    exact h7 _
  · have hab : runPipeline tagMerge hooksAB () = Except.ok ["B", "A"] := rfl
    have hba : runPipeline tagMerge hooksBA () = Except.ok ["A", "B"] := rfl
    rw [hab, hba]
    simp

/-- Witness for C3: the concrete tag app composes to the B-outside-A
router, the last-registered initializer outermost. -/
theorem pipeline_router_composition_witness :
    runPipeline tagMerge hooksAB () = Except.ok ["B", "A"] ∧
      runPipeline tagMerge hooksAB () ≠ runPipeline tagMerge hooksBA () := by
  have h := pipeline_router_composition tagMerge hooksAB () ()
      [tagInit "A", tagInit "B"] [] (fun i r => i.name :: r) (fun r => r)
      rfl rfl rfl rfl rfl ?_ ?_
  · exact ⟨h.1.trans rfl, h.2⟩
  · intro i hi r
    fin_cases hi <;> rfl
  · intro r
    rfl

/-- C4: the base router from `before_routes` is merged with the declared
route table strictly before any initializer's `after_routes` runs: the
initializer layering is threaded from exactly the merged router, for
empty and non-empty initializer lists alike, and the first initializer of
a non-empty list receives exactly the merged router. -/
theorem pipeline_merge_before_layers
    (mergeRoutes : Router → RT → Router) (h : HooksM Ctx Router RT E emptyRouter)
    (ctx ctxF : Ctx) (inits : List (InitializerM Ctx Router E)) (r0 : Router)
    (h1 : h.after_context ctx = Except.ok ctxF)
    (h2 : h.before_run ctxF = Except.ok ())
    (h3 : h.initializers ctxF = Except.ok inits)
    (h4 : runInitsBeforeRun ctxF inits = Except.ok ())
    (h5 : h.before_routes ctxF = Except.ok r0) :
    (runPipeline mergeRoutes h ctx =
      match runInitsAfterRoutes ctxF (mergeRoutes r0 (h.routes ctxF)) inits with
      | Except.error e => Except.error e
      | Except.ok rN => h.after_routes rN ctxF) ∧
    (∀ i rest, inits = i :: rest →
      runInitsAfterRoutes ctxF (mergeRoutes r0 (h.routes ctxF)) inits =
        match i.after_routes (mergeRoutes r0 (h.routes ctxF)) ctxF with
        | Except.error e => Except.error e
        | Except.ok r2 => runInitsAfterRoutes ctxF r2 rest) := by
  constructor
  · unfold runPipeline
    rw [h1]
    dsimp only
    rw [h2]
    dsimp only
    rw [h3]
    dsimp only
    rw [h4]
    dsimp only
    rw [h5]
  · intro i rest hi
    subst hi
    rfl

/-- Witness for C4: the concrete tag app threads its layering from the
merged router. -/
theorem pipeline_merge_before_layers_witness :
    runPipeline tagMerge hooksAB () =
      match runInitsAfterRoutes () (tagMerge [] (hooksAB.routes ()))
          [tagInit "A", tagInit "B"] with
      | Except.error e => Except.error e
      | Except.ok rN => hooksAB.after_routes rN () :=
  (pipeline_merge_before_layers tagMerge hooksAB () ()
    [tagInit "A", tagInit "B"] [] rfl rfl rfl rfl rfl).1

/-- C7: a failing stage — including a failing initializer `before_run` or
`after_routes` anywhere in the registry — short-circuits the remaining
stages and the remaining initializer operations (the result does not
depend on them), and the original failure value is delivered unchanged. -/
theorem pipeline_failure_shortcircuits
    (mergeRoutes : Router → RT → Router) (h : HooksM Ctx Router RT E emptyRouter)
    (ctx : Ctx) (e : E) :
    (h.after_context ctx = Except.error e →
      runPipeline mergeRoutes h ctx = Except.error e) ∧
    (∀ ctxF, h.after_context ctx = Except.ok ctxF →
      h.before_run ctxF = Except.error e →
      runPipeline mergeRoutes h ctx = Except.error e) ∧
    (∀ ctxF, h.after_context ctx = Except.ok ctxF →
      h.before_run ctxF = Except.ok () →
      h.initializers ctxF = Except.error e →
      runPipeline mergeRoutes h ctx = Except.error e) ∧
    (∀ ctxF pre i rest, h.after_context ctx = Except.ok ctxF →
      h.before_run ctxF = Except.ok () →
      h.initializers ctxF = Except.ok (pre ++ i :: rest) →
      runInitsBeforeRun ctxF pre = Except.ok () →
      i.before_run ctxF = Except.error e →
      runPipeline mergeRoutes h ctx = Except.error e) ∧
    (∀ ctxF inits, h.after_context ctx = Except.ok ctxF →
      h.before_run ctxF = Except.ok () →
      h.initializers ctxF = Except.ok inits →
      runInitsBeforeRun ctxF inits = Except.ok () →
      h.before_routes ctxF = Except.error e →
      runPipeline mergeRoutes h ctx = Except.error e) ∧
    (∀ ctxF pre i rest r0 rMid, h.after_context ctx = Except.ok ctxF →
      h.before_run ctxF = Except.ok () →
      h.initializers ctxF = Except.ok (pre ++ i :: rest) →
      runInitsBeforeRun ctxF (pre ++ i :: rest) = Except.ok () →
      h.before_routes ctxF = Except.ok r0 →
      runInitsAfterRoutes ctxF (mergeRoutes r0 (h.routes ctxF)) pre = Except.ok rMid →
      i.after_routes rMid ctxF = Except.error e →
      runPipeline mergeRoutes h ctx = Except.error e) ∧
    (∀ ctxF inits r0 rN, h.after_context ctx = Except.ok ctxF →
      h.before_run ctxF = Except.ok () →
      h.initializers ctxF = Except.ok inits →
      runInitsBeforeRun ctxF inits = Except.ok () →
      h.before_routes ctxF = Except.ok r0 →
      runInitsAfterRoutes ctxF (mergeRoutes r0 (h.routes ctxF)) inits = Except.ok rN →
      h.after_routes rN ctxF = Except.error e →
      runPipeline mergeRoutes h ctx = Except.error e) := by
  refine ⟨?_, ?_, ?_, ?_, ?_, ?_, ?_⟩
  · intro h1
    unfold runPipeline
    rw [h1]
  · intro ctxF h1 h2
    unfold runPipeline
    rw [h1]
    dsimp only
    rw [h2]
  · intro ctxF h1 h2 h3
    unfold runPipeline
    rw [h1]
    dsimp only
    rw [h2]
    dsimp only
    rw [h3]
  · intro ctxF pre i rest h1 h2 h3 hpre hi
    unfold runPipeline
    rw [h1]
    dsimp only
    rw [h2]
    dsimp only
    rw [h3]
    dsimp only
    rw [runInitsBeforeRun_append, hpre]
    dsimp only
    simp [runInitsBeforeRun, hi]
  · intro ctxF inits h1 h2 h3 h4 h5
    unfold runPipeline
    rw [h1]
    dsimp only
    rw [h2]
    dsimp only
    rw [h3]
    dsimp only
    rw [h4]
    dsimp only
    rw [h5]
  · intro ctxF pre i rest r0 rMid h1 h2 h3 h4 h5 hmid hi
    unfold runPipeline
    rw [h1]
    dsimp only
    rw [h2]
    dsimp only
    rw [h3]
    dsimp only
    rw [h4]
    dsimp only
    rw [h5]
    dsimp only
    rw [runInitsAfterRoutes_append, hmid]
    dsimp only
    simp [runInitsAfterRoutes, hi]
  · intro ctxF inits r0 rN h1 h2 h3 h4 h5 h6 h7
    unfold runPipeline
    rw [h1]
    dsimp only
    rw [h2]
    dsimp only
    rw [h3]
    dsimp only
    rw [h4]
    dsimp only
    rw [h5]
    dsimp only
    rw [h6]
    dsimp only
    rw [h7]

/-- A concrete app whose top-level `before_run` fails with error 7. -/
def hooksFailBeforeRun : HooksM Unit (List String) Unit Nat [] :=
  { app_name := "demo", routes := fun _ => (),
    before_run := fun _ => Except.error 7 }

/-- Witness for C7: the concrete failing `before_run` aborts the pipeline
and the error value 7 arrives unchanged. -/
theorem pipeline_failure_shortcircuits_witness :
    runPipeline tagMerge hooksFailBeforeRun () = Except.error 7 :=
  (pipeline_failure_shortcircuits tagMerge hooksFailBeforeRun () 7).2.1 () rfl rfl

/-- C8: only `routes` and the application-name accessor lack defaults; a
hooks value supplying just those two gets exactly the inert defaults —
identity `after_context`, no-op success `before_run`, the empty
initializer list, the empty base router from `before_routes`, identity
top-level `after_routes`, no-op `on_shutdown` — and an initializer
supplying just its name gets the no-op success `before_run` and the
identity `after_routes`. -/
theorem hooks_defaults {Ctx2 Router2 RT2 E2 : Type} (emptyR : Router2)
    (nm : String) (rt : Ctx2 → RT2) (c : Ctx2) (r : Router2) (inm : String) :
    (({ app_name := nm, routes := rt } : HooksM Ctx2 Router2 RT2 E2 emptyR).after_context c =
        Except.ok c) ∧
    (({ app_name := nm, routes := rt } : HooksM Ctx2 Router2 RT2 E2 emptyR).before_run c =
        Except.ok ()) ∧
    (({ app_name := nm, routes := rt } : HooksM Ctx2 Router2 RT2 E2 emptyR).initializers c =
        Except.ok []) ∧
    (({ app_name := nm, routes := rt } : HooksM Ctx2 Router2 RT2 E2 emptyR).before_routes c =
        Except.ok emptyR) ∧
    (({ app_name := nm, routes := rt } : HooksM Ctx2 Router2 RT2 E2 emptyR).after_routes r c =
        Except.ok r) ∧
    (({ app_name := nm, routes := rt } : HooksM Ctx2 Router2 RT2 E2 emptyR).on_shutdown c =
        ()) ∧
    (({ name := inm } : InitializerM Ctx2 Router2 E2).before_run c = Except.ok ()) ∧
    (({ name := inm } : InitializerM Ctx2 Router2 E2).after_routes r c = Except.ok r) :=
  ⟨rfl, rfl, rfl, rfl, rfl, rfl, rfl, rfl⟩

end LocoMinimal
